import Mathlib

/-!
Shallow embedding of the three scripts of this repository:

* `analyze_rls_issues.py` and `rls_consolidation_analysis.py` — both read CSV
  rows, extract `table`, `role`, `action` and a policy list from the free-text
  `detail` column with Python regexes, group the resulting issues by table and
  by role+action, and print summaries.  `rls_consolidation_analysis.py`
  additionally ranks tables by severity and computes a "performance impact".
* `scripts/analyze-db.py` — a CLI dispatcher that builds a JSON-RPC style
  request and forwards it to an external `postgres-mcp` process.

Strings are modelled on `List Char` (`String.data`); the specific Python
regexes of the scripts are modelled by direct scanning functions with the
exact semantics of `re.search` for those patterns.
-/

namespace FormulaPM

/-- Backtick character, written via its code point. -/
def btick : Char := Char.ofNat 96

/-- Drop `pat` from the front of `s`; `none` when `s` does not start with
`pat`.  Models matching the literal part of a regex at a fixed position. -/
def dropLit : List Char → List Char → Option (List Char)
  | [], s => some s
  | _ :: _, [] => none
  | p :: ps, c :: cs => if c = p then dropLit ps cs else none

/-- Characters strictly before the first backtick; `none` when no backtick
follows.  Models the greedy group ([^`]+) followed by a literal backtick:
the capture is everything up to the next backtick. -/
def beforeTick : List Char → Option (List Char)
  | [] => none
  | c :: cs => if c = btick then some [] else (beforeTick cs).map (c :: ·)

/-- Regex match attempt at one position: the literal `pat`, then a nonempty
backtick-free capture, then a backtick. -/
def matchTickAt (pat s : List Char) : Option (List Char) :=
  match dropLit pat s with
  | none => none
  | some rest =>
    match beforeTick rest with
    | none => none
    | some cap => if cap = [] then none else some cap

/-- Leftmost-position search for `pat` + ([^`]+) + backtick, as done by
Python's re.search for the three field regexes. -/
def searchTick (pat : List Char) : List Char → Option (List Char)
  | [] => none
  | c :: cs =>
    match matchTickAt pat (c :: cs) with
    | some cap => some cap
    | none => searchTick pat cs

/-- Literal part of the regex (Table `public\.([^`]+)`). -/
def tablePat : List Char := "Table `public.".data

/-- Literal part of the regex (for role `([^`]+)`). -/
def rolePat : List Char := "for role `".data

/-- Literal part of the regex (for action `([^`]+)`). -/
def actionPat : List Char := "for action `".data

/-- Non-greedy capture (.+?) followed by the literal two characters
closing-brace backtick: the shortest nonempty newline-free prefix whose next
two characters are the closing-brace and a backtick. -/
def minCaptureBT : List Char → Option (List Char)
  | [] => none
  | c :: cs =>
    if c = '\n' then none
    else
      match cs with
      | d :: e :: _ =>
        if d = '\x7d' ∧ e = btick then some [c]
        else (minCaptureBT cs).map (c :: ·)
      | _ => (minCaptureBT cs).map (c :: ·)

/-- Literal part of the policies regex (Policies include `\{). -/
def polPat : List Char := "Policies include ".data ++ [btick, '\x7b']

/-- Match attempt for the policies regex at one position. -/
def matchPolAt (s : List Char) : Option (List Char) :=
  match dropLit polPat s with
  | none => none
  | some rest => minCaptureBT rest

/-- Leftmost-position search for the policies regex. -/
def searchPol : List Char → Option (List Char)
  | [] => none
  | c :: cs =>
    match matchPolAt (c :: cs) with
    | some cap => some cap
    | none => searchPol cs

/-- Python lstrip with the double-quote character: drop every leading
double quote. -/
def lstripQ (s : List Char) : List Char := s.dropWhile (· = '"')

/-- Python rstrip with the double-quote character: drop every trailing
double quote. -/
def rstripQ (s : List Char) : List Char := (s.reverse.dropWhile (· = '"')).reverse

/-- Python strip with the double-quote character: drop every leading and
trailing double quote. -/
def stripQ (s : List Char) : List Char := rstripQ (lstripQ s)

/-- Python split on the three-character separator quote-comma-quote,
scanning left to right, non-overlapping; `acc` holds the characters of the
current chunk in reverse. -/
def splitQCQ : List Char → List Char → List (List Char)
  | '"' :: ',' :: '"' :: rest, acc => acc.reverse :: splitQCQ rest []
  | c :: rest, acc => splitQCQ rest (c :: acc)
  | [], acc => [acc.reverse]

/-- Assignment to index 0 of a nonempty Python list. -/
def modHead (f : α → α) : List α → List α
  | [] => []
  | x :: xs => f x :: xs

/-- Assignment to index -1 of a nonempty Python list. -/
def modLast (f : α → α) : List α → List α
  | [] => []
  | [x] => [f x]
  | x :: xs => x :: modLast f xs

/-- Cleanup of the captured policies string: split on the quote-comma-quote
separator, strip quotes from every element, then lstrip the first element and
rstrip the last one, exactly as the scripts do. -/
def cleanPolicies (s : List Char) : List (List Char) :=
  modLast rstripQ (modHead lstripQ ((splitQCQ s []).map stripQ))

/-- One parsed row, as appended to the `issues` list by both scripts. -/
structure Issue where
  table : String
  role : String
  action : String
  policies : List String
  policy_count : Nat
deriving DecidableEq, Repr

/-- Extraction of one issue from the `detail` column of a row, following the
per-row body of the extraction loop shared by both analysis scripts. -/
def parseRow (detail : String) : Issue :=
  let d := detail.data
  let table := match searchTick tablePat d with
    | some cap => cap.asString
    | none => "Unknown"
  let role := match searchTick rolePat d with
    | some cap => cap.asString
    | none => "Unknown"
  let action := match searchTick actionPat d with
    | some cap => cap.asString
    | none => "Unknown"
  let policies := match searchPol d with
    | some cap => (cleanPolicies cap).map List.asString
    | none => []
  { table := table, role := role, action := action,
    policies := policies, policy_count := policies.length }

/-- One entry of a `role_actions` bucket: the policies of one issue and their
count, as appended by the grouping loop. -/
structure Conflict where
  policies : List String
  count : Nat
deriving DecidableEq, Repr

/-- Per-table value of the `table_summary` defaultdict.  In Python this is a
dict with exactly the two keys total_issues and role_actions; `role_actions`
is itself an insertion-ordered dict, modelled as an association list. -/
structure TableData where
  total_issues : Nat
  role_actions : List (String × List Conflict)
deriving DecidableEq, Repr

/-- Append `c` to the bucket of key `k`, creating the bucket at the end when
the key is new — the behaviour of a Python defaultdict(list). -/
def raInsert (k : String) (c : Conflict) :
    List (String × List Conflict) → List (String × List Conflict)
  | [] => [(k, [c])]
  | (k', cs) :: rest =>
    if k' = k then (k', cs ++ [c]) :: rest else (k', cs) :: raInsert k c rest

/-- The role+action grouping key; `analyze_rls_issues.py` joins with an
underscore, `rls_consolidation_analysis.py` with a plus sign. -/
def raKey (sep : String) (i : Issue) : String := i.role ++ sep ++ i.action

/-- One step of the grouping loop: bump the table's `total_issues` and append
this issue's conflict under its role+action key.  New tables are appended at
the end, matching dict insertion order. -/
def tsUpdate (sep : String) (i : Issue) :
    List (String × TableData) → List (String × TableData)
  | [] => [(i.table, ⟨1, [(raKey sep i, [⟨i.policies, i.policy_count⟩])]⟩)]
  | (t, td) :: rest =>
    if t = i.table then
      (t, ⟨td.total_issues + 1,
           raInsert (raKey sep i) ⟨i.policies, i.policy_count⟩ td.role_actions⟩) :: rest
    else (t, td) :: tsUpdate sep i rest

/-- The `table_summary` defaultdict after the grouping loop, as an
insertion-ordered association list. -/
def table_summary (sep : String) (issues : List Issue) :
    List (String × TableData) :=
  issues.foldl (fun d i => tsUpdate sep i d) []

/-- Python max over the flattened conflict counts of one table, written with
a fold; the flattened list is nonempty for every table built by the grouping
loop, so the fold from 0 agrees with Python's max (which would raise on an
empty list). -/
def maxCount (td : TableData) : Nat :=
  ((td.role_actions.map Prod.snd).flatten.map Conflict.count).foldl max 0

/-- The unsorted severity triples (table, total_issues, max_policies), built
from `table_summary.items()` in insertion order. -/
def severityEntries (issues : List Issue) : List (String × Nat × Nat) :=
  (table_summary "+" issues).map fun p => (p.1, p.2.total_issues, maxCount p.2)

/-- Ordering used by the severity sort: `sevR a b` holds when `a` may be
placed before `b`, i.e. the sort key (issues, max policies) of `a` is
lexicographically at least that of `b`.  Python's list.sort with
reverse=True is a stable descending sort, which insertion sort with this
relation realizes. -/
def sevR (a b : String × Nat × Nat) : Prop :=
  b.2.1 < a.2.1 ∨ (b.2.1 = a.2.1 ∧ b.2.2 ≤ a.2.2)

instance : DecidableRel sevR := fun a b =>
  inferInstanceAs (Decidable (b.2.1 < a.2.1 ∨ (b.2.1 = a.2.1 ∧ b.2.2 ≤ a.2.2)))

instance : IsTotal (String × Nat × Nat) sevR :=
  ⟨fun x y => by unfold sevR; omega⟩

instance : IsTrans (String × Nat × Nat) sevR :=
  ⟨fun _x _y _z hxy hyz => by unfold sevR at *; omega⟩

/-- The severity ranking of `rls_consolidation_analysis.py`: the triples of
`severityEntries` sorted descending by (issue count, max policy count). -/
def severity_by_table (issues : List Issue) : List (String × Nat × Nat) :=
  List.insertionSort sevR (severityEntries issues)

/-- Minimal JSON value type covering the requests `analyze-db.py` builds:
strings, numbers and objects with insertion-ordered fields. -/
inductive Json where
  | str (s : String)
  | num (n : Nat)
  | obj (fields : List (String × Json))

/-- Field names of a JSON object, in order; other values have none. -/
def jKeys : Json → List String
  | .obj fs => fs.map Prod.fst
  | _ => []

/-- Lookup of a field in a JSON object. -/
def jLookup (k : String) : Json → Option Json
  | .obj fs => go fs
  | _ => none
where go : List (String × Json) → Option Json
  | [] => none
  | (k', v) :: rest => if k' = k then some v else go rest

/-- The request dict built by run_mcp_command and serialised onto the
spawned process's standard input. -/
def mcp_input (name : String) (arguments : Json) : Json :=
  .obj [("jsonrpc", .str "2.0"),
        ("method", .str "tools/call"),
        ("params", .obj [("name", .str name), ("arguments", arguments)]),
        ("id", .num 1)]

/-- Observable outcome of one `analyze-db.py` invocation. -/
inductive CliAction where
  | usage
  | unknown (cmd : String)
  | tool (name : String) (arguments : Json)

/-- Outcome plus process exit status: sys.exit(1) gives 1, falling off the
end of main gives 0. -/
structure CliResult where
  action : CliAction
  exitCode : Nat

/-- The argv dispatch of `analyze-db.py`'s main: fewer than two argv entries
prints usage and exits 1; the three fixed commands and `explain` with a query
run one tool each; everything else prints an error line and exits 1. -/
def main : List String → CliResult
  | [] => ⟨.usage, 1⟩
  | [_] => ⟨.usage, 1⟩
  | _ :: cmd :: rest =>
    if cmd = "health" then ⟨.tool "analyze_db_health" (.obj []), 0⟩
    else if cmd = "slow-queries" then ⟨.tool "get_top_queries" (.obj []), 0⟩
    else if cmd = "index-recommend" then ⟨.tool "analyze_workload_indexes" (.obj []), 0⟩
    else if cmd = "explain" then
      match rest with
      | q :: _ => ⟨.tool "explain_query" (.obj [("query", .str q)]), 0⟩
      | [] => ⟨.unknown cmd, 1⟩
    else ⟨.unknown cmd, 1⟩

/-- The JSON-RPC request a given invocation writes to the subprocess's
standard input, when the invocation reaches run_mcp_command at all. -/
def requestFor (argv : List String) : Option Json :=
  match (main argv).action with
  | .tool name arguments => some (mcp_input name arguments)
  | _ => none

/-- Lines printed by run_mcp_command and its caller for one subprocess
result: a non-empty stderr is printed prefixed with "Error: ", then the
returned stdout is printed by the subcommand function.  (A banner line
precedes these; it does not depend on the subprocess outputs.) -/
def wrapperLines (stdout stderr : String) : List String :=
  (if stderr ≠ "" then ["Error: " ++ stderr] else []) ++ [stdout]

/-- Sum of conflict counts over the whole summary — the
total_policy_executions_before generator expression. -/
def total_policy_executions_before (issues : List Issue) : Nat :=
  (((table_summary "+" issues).map (fun p => p.2.role_actions)).flatten.map
    (fun p => (p.2.map Conflict.count).sum)).sum

/-- Number of keys of a per-table summary dict: always the two keys
total_issues and role_actions. -/
def tdNumKeys (_ : TableData) : Nat := 2

/-- Value of len(data) at the line computing total_policy_executions_after:
the loops `for table, data in table_summary.items()` rebind `data`, so after
a non-empty iteration it is the last table's summary dict and len gives its
key count; only when table_summary is empty does `data` still hold the CSV
rows. -/
def total_policy_executions_after (rows : List String) : Nat :=
  match (table_summary "+" (rows.map parseRow)).getLast? with
  | some p => tdNumKeys p.2
  | none => rows.length

/-- The performance_improvement expression; `none` models the
ZeroDivisionError raised when total_policy_executions_before is 0.  The
Python float arithmetic is modelled over ℚ, which is exact here and only the
definedness of the division is at stake. -/
def performance_improvement (rows : List String) : Option ℚ :=
  let before := total_policy_executions_before (rows.map parseRow)
  let after := total_policy_executions_after rows
  if before = 0 then none
  else some (((before : ℚ) - (after : ℚ)) / (before : ℚ) * 100)

/-- Tables in order of their first occurrence in the issue list.  This is the
specification-side description of Python dict insertion order, used to state
that the severity ranking's tie order is first-occurrence order. -/
def firstOccurrences (tables : List String) : List String :=
  tables.foldl (fun acc t => if t ∈ acc then acc else acc ++ [t]) []

/-- Splitting at the first underscore: Python s.split(underscore, 1), which
the printing and consolidation loops of `analyze_rls_issues.py` use to decode
a role_action key; `none` models the ValueError when no underscore occurs
(cannot happen for keys built by the grouping loop). -/
def splitOnceUS : List Char → Option (List Char × List Char)
  | [] => none
  | c :: cs =>
    if c = '_' then some ([], cs)
    else (splitOnceUS cs).map fun p => (c :: p.1, p.2)

/-- Decoding `role, action = role_action.split(underscore, 1)` on strings. -/
def decodeRA (s : String) : Option (String × String) :=
  (splitOnceUS s.data).map fun p => (p.1.asString, p.2.asString)

end FormulaPM

-- Sanity checks of the regex model on concrete strings.
example : FormulaPM.searchTick FormulaPM.tablePat
    "Table `public.projects` has issues".data = some "projects".data := by decide
example : FormulaPM.searchTick FormulaPM.rolePat "nothing here".data = none := by
  decide
example : FormulaPM.searchPol
    ("Policies include " ++ [FormulaPM.btick, '\x7b'].asString
      ++ "\"a\",\"b\"" ++ ['\x7d', FormulaPM.btick].asString).data
    = some "\"a\",\"b\"".data := by decide
example :
    (FormulaPM.parseRow ("Table " ++ [FormulaPM.btick].asString ++ "public.tasks"
      ++ [FormulaPM.btick].asString ++ " for role " ++ [FormulaPM.btick].asString
      ++ "anon" ++ [FormulaPM.btick].asString ++ " Policies include "
      ++ [FormulaPM.btick, '\x7b'].asString ++ "\"p one\",\"p two\""
      ++ ['\x7d', FormulaPM.btick].asString)) =
    { table := "tasks", role := "anon", action := "Unknown",
      policies := ["p one", "p two"], policy_count := 2 } := by decide
example : FormulaPM.parseRow "hello" =
    { table := "Unknown", role := "Unknown", action := "Unknown",
      policies := [], policy_count := 0 } := by decide

namespace FormulaPM

/-! ### Helper lemmas about quote stripping -/

/-- The result of dropping leading quotes is empty or starts with a
non-quote character. -/
theorem lstripQ_cases (l : List Char) :
    lstripQ l = [] ∨ ∃ c t, lstripQ l = c :: t ∧ ¬ c = '"' := by
  induction l with
  | nil => exact Or.inl rfl
  | cons c cs ih =>
    by_cases h : c = '"'
    · simpa [lstripQ, List.dropWhile_cons, h] using ih
    · exact Or.inr ⟨c, cs, by simp [lstripQ, List.dropWhile_cons, h], h⟩

/-- Dropping leading quotes twice is the same as doing it once. -/
theorem lstripQ_idem (l : List Char) : lstripQ (lstripQ l) = lstripQ l := by
  rcases lstripQ_cases l with h | ⟨c, t, h, hc⟩
  · rw [h]; rfl
  · rw [h]; simp [lstripQ, List.dropWhile_cons, hc]

/-- Dropping trailing quotes yields a prefix of the input. -/
theorem rstripQ_prefix (l : List Char) : rstripQ l <+: l := by
  obtain ⟨t, ht⟩ := List.dropWhile_suffix (l := l.reverse) (p := (· = '"'))
  exact ⟨t.reverse, by
    rw [rstripQ, ← List.reverse_append, ht, List.reverse_reverse]⟩

/-- Dropping trailing quotes twice is the same as doing it once. -/
theorem rstripQ_idem (l : List Char) : rstripQ (rstripQ l) = rstripQ l := by
  unfold rstripQ
  rw [List.reverse_reverse]
  rcases lstripQ_cases l.reverse with h | ⟨c, t, h, hc⟩
  · rw [lstripQ] at h; rw [h]; rfl
  · rw [lstripQ] at h; rw [h]; simp [List.dropWhile_cons, hc, h]

/-- Stripping quotes leaves no leading quote, so a further lstrip is the
identity. -/
theorem lstripQ_stripQ (l : List Char) : lstripQ (stripQ l) = stripQ l := by
  unfold stripQ
  rcases lstripQ_cases l with h | ⟨c, t, h, hc⟩
  · rw [h]; rfl
  · rw [h]
    rcases hr : rstripQ (c :: t) with _ | ⟨d, u⟩
    · rfl
    · obtain ⟨s, hs⟩ := rstripQ_prefix (c :: t)
      rw [hr] at hs
      have hd : d = c := by
        have := hs
        simp only [List.cons_append] at this
        exact (List.cons.injEq .. ▸ this).1
      subst hd
      simp [lstripQ, List.dropWhile_cons, hc]

/-- Stripping quotes leaves no trailing quote, so a further rstrip is the
identity. -/
theorem rstripQ_stripQ (l : List Char) : rstripQ (stripQ l) = stripQ l := by
  unfold stripQ
  exact rstripQ_idem _

/-- Relstripping the first element of the stripped split is a no-op. -/
theorem modHead_map_stripQ (L : List (List Char)) :
    modHead lstripQ (L.map stripQ) = L.map stripQ := by
  cases L with
  | nil => rfl
  | cons a l => simp [modHead, lstripQ_stripQ]

/-- Restripping the last element of the stripped split is a no-op. -/
theorem modLast_map_stripQ (L : List (List Char)) :
    modLast rstripQ (L.map stripQ) = L.map stripQ := by
  induction L with
  | nil => rfl
  | cons a l ih =>
    cases l with
    | nil => simp [modLast, rstripQ_stripQ]
    | cons b m =>
      simp only [List.map_cons] at ih ⊢
      have hstep : modLast rstripQ (stripQ a :: stripQ b :: List.map stripQ m)
          = stripQ a :: modLast rstripQ (stripQ b :: List.map stripQ m) := rfl
      rw [hstep, ih]

/-- The per-element strip already accounts for the extra first/last element
cleanup the scripts perform. -/
theorem cleanPolicies_eq (s : List Char) :
    cleanPolicies s = (splitQCQ s []).map stripQ := by
  unfold cleanPolicies
  rw [modHead_map_stripQ, modLast_map_stripQ]

end FormulaPM

namespace FormulaPM

/-! ### Claim theorems: extraction -/

/-- C1: when none of the four regexes matches the `detail` string, the
extraction loop yields the literal "Unknown" for table, role and action, an
empty policy list and policy count 0; the extraction is a total function, so
no exception is raised. -/
theorem unmatched_detail_defaults (detail : String)
    (ht : searchTick tablePat detail.data = none)
    (hr : searchTick rolePat detail.data = none)
    (ha : searchTick actionPat detail.data = none)
    (hp : searchPol detail.data = none) :
    parseRow detail =
      { table := "Unknown", role := "Unknown", action := "Unknown",
        policies := [], policy_count := 0 } := by
  simp only [parseRow, ht, hr, ha, hp]
  rfl

/-- Witness for C1: the concrete detail string "hello" matches none of the
patterns and extracts to the all-default issue. -/
theorem unmatched_detail_defaults_witness :
    searchTick tablePat "hello".data = none ∧
    searchTick rolePat "hello".data = none ∧
    searchTick actionPat "hello".data = none ∧
    searchPol "hello".data = none ∧
    parseRow "hello" =
      { table := "Unknown", role := "Unknown", action := "Unknown",
        policies := [], policy_count := 0 } :=
  ⟨by decide, by decide, by decide, by decide,
    unmatched_detail_defaults "hello" (by decide) (by decide) (by decide)
      (by decide)⟩

/-- C6: when a policies segment is captured, the extracted policy list is the
capture split on the quote-comma-quote separator with all surrounding double
quotes stripped from every element (the additional lstrip of the first
element and rstrip of the last element change nothing); with no capture the
list is empty; and policy_count always equals the list's length. -/
theorem policies_extraction (detail : String) :
    (∀ s, searchPol detail.data = some s →
      (parseRow detail).policies =
        (splitQCQ s []).map fun p => (stripQ p).asString) ∧
    (searchPol detail.data = none → (parseRow detail).policies = []) ∧
    (parseRow detail).policy_count = (parseRow detail).policies.length := by
  refine ⟨?_, ?_, rfl⟩
  · intro s h
    simp only [parseRow, h]
    rw [cleanPolicies_eq, List.map_map]
    rfl
  · intro h
    simp only [parseRow, h]

/-- Witness for C6: a concrete detail string whose policies segment captures
two quoted names splits and strips to exactly those names. -/
theorem policies_extraction_witness :
    searchPol ("Policies include " ++ [btick, '\x7b'].asString
      ++ "\"pol a\",\"pol b\"" ++ ['\x7d', btick].asString).data
      = some "\"pol a\",\"pol b\"".data ∧
    (parseRow ("Policies include " ++ [btick, '\x7b'].asString
      ++ "\"pol a\",\"pol b\"" ++ ['\x7d', btick].asString)).policies =
      (splitQCQ "\"pol a\",\"pol b\"".data []).map
        (fun p => (stripQ p).asString) :=
  ⟨by decide,
    (policies_extraction _).1 _ (by decide)⟩

end FormulaPM

namespace FormulaPM

/-! ### Claim theorems: the role_action key of analyze_rls_issues.py -/

/-- Splitting the concatenation at the first underscore recovers the parts
when the left part contains no underscore. -/
theorem splitOnceUS_append (l m : List Char) (h : '_' ∉ l) :
    splitOnceUS (l ++ '_' :: m) = some (l, m) := by
  induction l with
  | nil => simp [splitOnceUS]
  | cons c cs ih =>
    have hc : ¬ c = '_' := fun he => h (he ▸ List.mem_cons_self c cs)
    have hcs : '_' ∉ cs := fun hm => h (List.mem_cons_of_mem c hm)
    simp [splitOnceUS, hc, ih hcs]

/-- C10: decoding a role_action key with split(underscore, 1) round-trips
for every issue whose role contains no underscore, and fails to round-trip
for the underscore-bearing role service_role. -/
theorem role_action_key_roundtrip :
    (∀ i : Issue, '_' ∉ i.role.data →
      decodeRA (raKey "_" i) = some (i.role, i.action)) ∧
    (decodeRA (raKey "_"
        { table := "t", role := "service_role", action := "SELECT",
          policies := [], policy_count := 0 })
      = some ("service", "role_SELECT") ∧
      (("service" : String), ("role_SELECT" : String))
        ≠ (("service_role" : String), ("SELECT" : String))) := by
  refine ⟨?_, by decide, by decide⟩
  intro i h
  have hdata : (raKey "_" i).data = i.role.data ++ '_' :: i.action.data := by
    simp [raKey, String.data_append]
  unfold decodeRA
  rw [hdata, splitOnceUS_append _ _ h]
  simp [List.asString]

/-- Witness for C10: the underscore-free role authenticated round-trips on a
concrete issue. -/
theorem role_action_key_roundtrip_witness :
    decodeRA (raKey "_"
      { table := "t", role := "authenticated", action := "SELECT",
        policies := [], policy_count := 0 })
      = some ("authenticated", "SELECT") :=
  role_action_key_roundtrip.1 _ (by decide)

/-! ### Claim theorems: the CLI wrapper -/

/-- Counterexample to C5: a non-empty stderr "boom" is printed as the line
"Error: boom", and the verbatim string "boom" appears nowhere in the printed
lines, so stderr is not printed unmodified. -/
theorem stderr_not_verbatim_counterexample :
    wrapperLines "ok" "boom" = ["Error: boom", "ok"] ∧
    "boom" ∉ wrapperLines "ok" "boom" := by
  constructor
  · rfl
  · decide

/-- C5 amended: the subprocess's stdout is printed unmodified; its stderr is
printed only when non-empty, and then as a line prefixed with "Error: ". -/
theorem wrapper_output_shape (stdout stderr : String) :
    (stderr = "" → wrapperLines stdout stderr = [stdout]) ∧
    (stderr ≠ "" →
      wrapperLines stdout stderr = ["Error: " ++ stderr, stdout]) := by
  constructor <;> intro h <;> simp [wrapperLines, h]

/-- Witness for C5's amended theorem at empty and non-empty stderr. -/
theorem wrapper_output_shape_witness :
    wrapperLines "ok" "" = ["ok"] ∧
    wrapperLines "ok" "warn" = ["Error: warn", "ok"] :=
  ⟨(wrapper_output_shape "ok" "").1 rfl,
    (wrapper_output_shape "ok" "warn").2 (by decide)⟩

end FormulaPM

namespace FormulaPM

/-- C2: running with no arguments (argv holds only the program name) prints
usage and exits 1; `explain` without a query exits 1 via the unknown-command
branch; any command outside the four known ones prints the error line and
exits 1; and every invocation exits with either 0 (a valid run) or 1, so no
exit code other than 1 occurs for invalid invocations. -/
theorem cli_exit_codes :
    (∀ p : String, main [p] = ⟨.usage, 1⟩) ∧
    main [] = ⟨.usage, 1⟩ ∧
    (∀ p : String, main [p, "explain"] = ⟨.unknown "explain", 1⟩) ∧
    (∀ (p cmd : String) (rest : List String),
      cmd ∉ ["health", "slow-queries", "index-recommend", "explain"] →
      main (p :: cmd :: rest) = ⟨.unknown cmd, 1⟩) ∧
    (∀ argv : List String,
      (main argv).exitCode = 0 ∨ (main argv).exitCode = 1) := by
  refine ⟨fun p => rfl, rfl, fun p => rfl, ?_, ?_⟩
  · intro p cmd rest h
    simp only [List.mem_cons, List.mem_singleton, not_or] at h
    obtain ⟨h1, h2, h3, h4⟩ := h
    simp [main, h1, h2, h3, h4]
  · intro argv
    match argv with
    | [] => exact Or.inr rfl
    | [_] => exact Or.inr rfl
    | _ :: cmd :: rest =>
      simp only [main]
      split
      · exact Or.inl rfl
      · split
        · exact Or.inl rfl
        · split
          · exact Or.inl rfl
          · split
            · split
              · exact Or.inl rfl
              · exact Or.inr rfl
            · exact Or.inr rfl

/-- Witness for C2: the unrecognized command bogus exits 1 with the error
outcome. -/
theorem cli_exit_codes_witness :
    main ["analyze-db.py", "bogus"] = ⟨.unknown "bogus", 1⟩ :=
  cli_exit_codes.2.2.2.1 "analyze-db.py" "bogus" [] (by decide)

/-- C7: every request that reaches the subprocess is an object with exactly
the fields jsonrpc, method, params and id, whose method is "tools/call" and
whose params object has exactly the fields name and arguments; each
subcommand sends its tool name, with the query as the arguments for
`explain` and an empty arguments object otherwise. -/
theorem request_shape :
    (∀ (argv : List String) (j : Json), requestFor argv = some j →
      jKeys j = ["jsonrpc", "method", "params", "id"] ∧
      jLookup "method" j = some (.str "tools/call") ∧
      ∃ params, jLookup "params" j = some params ∧
        jKeys params = ["name", "arguments"]) ∧
    (∀ (p : String) (rest : List String),
      requestFor (p :: "health" :: rest) =
        some (mcp_input "analyze_db_health" (.obj []))) ∧
    (∀ (p : String) (rest : List String),
      requestFor (p :: "slow-queries" :: rest) =
        some (mcp_input "get_top_queries" (.obj []))) ∧
    (∀ (p : String) (rest : List String),
      requestFor (p :: "index-recommend" :: rest) =
        some (mcp_input "analyze_workload_indexes" (.obj []))) ∧
    (∀ (p q : String) (rest : List String),
      requestFor (p :: "explain" :: q :: rest) =
        some (mcp_input "explain_query" (.obj [("query", .str q)]))) := by
  refine ⟨?_, fun p rest => rfl, fun p rest => rfl, fun p rest => rfl,
    fun p q rest => rfl⟩
  intro argv j h
  unfold requestFor at h
  cases hA : (main argv).action with
  | usage => rw [hA] at h; cases h
  | unknown c => rw [hA] at h; cases h
  | tool name arguments =>
    rw [hA] at h
    cases h
    exact ⟨rfl, rfl, ⟨_, rfl, rfl⟩⟩

/-- Witness for C7: the health subcommand's concrete request has the claimed
shape. -/
theorem request_shape_witness :
    jKeys (mcp_input "analyze_db_health" (.obj []))
        = ["jsonrpc", "method", "params", "id"] ∧
    jLookup "method" (mcp_input "analyze_db_health" (.obj []))
        = some (.str "tools/call") ∧
    ∃ params,
      jLookup "params" (mcp_input "analyze_db_health" (.obj []))
          = some params ∧
      jKeys params = ["name", "arguments"] :=
  request_shape.1 ["analyze-db.py", "health"] _ rfl

end FormulaPM

namespace FormulaPM

/-! ### Claim theorems: grouping totals and the performance computation -/

/-- One grouping step never yields an empty summary. -/
theorem tsUpdate_ne_nil (sep : String) (i : Issue)
    (d : List (String × TableData)) : tsUpdate sep i d ≠ [] := by
  match d with
  | [] => simp [tsUpdate]
  | (t, td) :: rest =>
    simp only [tsUpdate]
    split <;> simp

/-- The summary of a non-empty issue list is non-empty. -/
theorem table_summary_ne_nil (sep : String) :
    ∀ (l : List Issue) (d : List (String × TableData)),
      d ≠ [] ∨ l ≠ [] →
      l.foldl (fun d i => tsUpdate sep i d) d ≠ []
  | [], d, h => by
    rcases h with h | h
    · simpa using h
    · exact absurd rfl h
  | i :: l, d, _ => by
    simpa [List.foldl_cons] using
      table_summary_ne_nil sep l (tsUpdate sep i d) (Or.inl (tsUpdate_ne_nil sep i d))

/-- C8: the shadowed `data` at the total_policy_executions_after line is the
last table's two-key summary dict, so the printed "after" value is 2 for
every non-empty input, and in particular differs from the row count whenever
that is not 2. -/
theorem shadowed_after_is_two (rows : List String) (h : rows ≠ []) :
    total_policy_executions_after rows = 2 ∧
    (rows.length ≠ 2 → total_policy_executions_after rows ≠ rows.length) := by
  have hne : table_summary "+" (rows.map parseRow) ≠ [] := by
    apply table_summary_ne_nil
    exact Or.inr (by simpa using h)
  have h2 : total_policy_executions_after rows = 2 := by
    unfold total_policy_executions_after
    cases hg : (table_summary "+" (rows.map parseRow)).getLast? with
    | none => exact absurd (List.getLast?_eq_none_iff.mp hg) hne
    | some p => rfl
  exact ⟨h2, fun hlen => by rw [h2]; omega⟩

/-- Witness for C8: on the single-row input the "after" value is 2, not the
row count 1. -/
theorem shadowed_after_is_two_witness :
    total_policy_executions_after ["x"] = 2 ∧
    total_policy_executions_after ["x"] ≠ ["x"].length :=
  ⟨(shadowed_after_is_two ["x"] (by simp)).1,
    (shadowed_after_is_two ["x"] (by simp)).2 (by decide)⟩

/-- Bucket sums after inserting one conflict grow by its count. -/
theorem raInsert_count_sum (k : String) (c : Conflict) :
    ∀ ras : List (String × List Conflict),
      (((raInsert k c ras).map fun p => ((p.2.map Conflict.count).sum)).sum)
        = ((ras.map fun p => ((p.2.map Conflict.count).sum)).sum) + c.count
  | [] => by simp [raInsert]
  | (k', cs) :: rest => by
    by_cases h : k' = k
    · simp [raInsert, h]
      omega
    · simp only [raInsert, if_neg h, List.map_cons, List.sum_cons,
        raInsert_count_sum k c rest]
      omega

/-- Total conflict-count sum of the summary, as summed by the
total_policy_executions_before generator. -/
def sumBefore (d : List (String × TableData)) : Nat :=
  (((d.map fun p => p.2.role_actions).flatten.map
    fun p => ((p.2.map Conflict.count).sum)).sum)

/-- One grouping step grows the conflict-count sum by the issue's policy
count. -/
theorem sumBefore_tsUpdate (sep : String) (i : Issue) :
    ∀ d : List (String × TableData),
      sumBefore (tsUpdate sep i d) = sumBefore d + i.policy_count
  | [] => by simp [sumBefore, tsUpdate, raKey]
  | (t, td) :: rest => by
    by_cases h : t = i.table
    · simp only [sumBefore, tsUpdate, if_pos h, List.map_cons,
        List.flatten_cons, List.map_append, List.sum_append]
      have := raInsert_count_sum (raKey sep i)
        ⟨i.policies, i.policy_count⟩ td.role_actions
      simp only [this]
      omega
    · simp only [sumBefore, tsUpdate, if_neg h, List.map_cons,
        List.flatten_cons, List.map_append, List.sum_append]
      have := sumBefore_tsUpdate sep i rest
      simp only [sumBefore] at this
      omega

/-- Folding the grouping over issues accumulates the policy counts. -/
theorem sumBefore_foldl (sep : String) :
    ∀ (l : List Issue) (d : List (String × TableData)),
      sumBefore (l.foldl (fun d i => tsUpdate sep i d) d)
        = sumBefore d + (l.map Issue.policy_count).sum
  | [], d => by simp
  | i :: l, d => by
    simp only [List.foldl_cons, List.map_cons, List.sum_cons]
    rw [sumBefore_foldl sep l (tsUpdate sep i d), sumBefore_tsUpdate]
    omega

/-- C9 amended: the empty input raises (the division is undefined), the
"before" total is the sum of the extracted policy counts, and the division
is defined exactly when that sum is positive — the presence of a row is not
sufficient, since a row matching no policies pattern contributes 0. -/
theorem division_by_zero_condition (rows : List String) :
    performance_improvement [] = none ∧
    total_policy_executions_before (rows.map parseRow)
      = ((rows.map parseRow).map Issue.policy_count).sum ∧
    (performance_improvement rows = none ↔
      total_policy_executions_before (rows.map parseRow) = 0) := by
  refine ⟨rfl, ?_, ?_⟩
  · have := sumBefore_foldl "+" (rows.map parseRow) []
    simpa [sumBefore, total_policy_executions_before, table_summary] using this
  · unfold performance_improvement
    by_cases h : total_policy_executions_before (rows.map parseRow) = 0
    · simp [h]
    · simp [h]

/-- Counterexample to C9 as stated: the one-row input "hello" has a row
present, yet the division is still undefined because no policies were
extracted. -/
theorem division_by_zero_counterexample :
    (["hello"] : List String).length = 1 ∧
    performance_improvement ["hello"] = none := by
  exact ⟨rfl, rfl⟩

/-- Witness for C9's amended theorem at a concrete input with one
policy-free row. -/
theorem division_by_zero_condition_witness :
    performance_improvement ["x"] = none :=
  (division_by_zero_condition ["x"]).2.2.mpr (by decide)

end FormulaPM

namespace FormulaPM

/-- Sum of the per-table total_issues counters. -/
def sumTotals (d : List (String × TableData)) : Nat :=
  ((d.map fun p => p.2.total_issues).sum)

/-- One grouping step grows the total_issues sum by exactly one. -/
theorem sumTotals_tsUpdate (sep : String) (i : Issue) :
    ∀ d : List (String × TableData),
      sumTotals (tsUpdate sep i d) = sumTotals d + 1
  | [] => by simp [sumTotals, tsUpdate]
  | (t, td) :: rest => by
    by_cases h : t = i.table
    · simp [sumTotals, tsUpdate, if_pos h]
      omega
    · simp only [sumTotals, tsUpdate, if_neg h, List.map_cons, List.sum_cons]
      have := sumTotals_tsUpdate sep i rest
      simp only [sumTotals] at this
      omega

/-- Folding the grouping over issues counts each issue exactly once. -/
theorem sumTotals_foldl (sep : String) :
    ∀ (l : List Issue) (d : List (String × TableData)),
      sumTotals (l.foldl (fun d i => tsUpdate sep i d) d)
        = sumTotals d + l.length
  | [], d => by simp
  | i :: l, d => by
    simp only [List.foldl_cons, List.length_cons]
    rw [sumTotals_foldl sep l (tsUpdate sep i d), sumTotals_tsUpdate]
    omega

/-- C3: grouping by table partitions the issues — for either script's key
separator, the per-table total_issues counts of the summary built from the
parsed rows sum to the number of input rows. -/
theorem grouping_partitions (sep : String) (rows : List String) :
    ((table_summary sep (rows.map parseRow)).map
      fun p => p.2.total_issues).sum = rows.length := by
  have := sumTotals_foldl sep (rows.map parseRow) []
  simpa [sumTotals, table_summary] using this

end FormulaPM

namespace FormulaPM

/-! ### Claim theorems: severity ranking (sortedness and stability) -/

/-- Inserting an element the filter rejects does not change the filtered
list. -/
theorem filter_orderedInsert_neg {α : Type} (r : α → α → Prop)
    [DecidableRel r] (q : α → Bool) (a : α) (hqa : q a = false) :
    ∀ l : List α, (List.orderedInsert r a l).filter q = l.filter q
  | [] => by simp [List.orderedInsert, hqa]
  | b :: l => by
    by_cases hr : r a b
    · simp [List.orderedInsert, if_pos hr, List.filter_cons, hqa]
    · simp only [List.orderedInsert, if_neg hr, List.filter_cons,
        filter_orderedInsert_neg r q a hqa l]

/-- Inserting an element the filter keeps, when it is related to every kept
element of the list, puts it at the head of the filtered list. -/
theorem filter_orderedInsert_pos {α : Type} (r : α → α → Prop)
    [DecidableRel r] (q : α → Bool) (a : α) (hqa : q a = true) :
    ∀ l : List α, (∀ b ∈ l, q b = true → r a b) →
      (List.orderedInsert r a l).filter q = a :: l.filter q
  | [], _ => by simp [List.orderedInsert, hqa]
  | b :: l, h => by
    by_cases hr : r a b
    · simp [List.orderedInsert, if_pos hr, List.filter_cons, hqa]
    · have hqb : q b = false := by
        cases hqb : q b
        · rfl
        · exact absurd (h b (List.mem_cons_self b l) hqb) hr
      simp only [List.orderedInsert, if_neg hr, List.filter_cons, hqb,
        Bool.false_eq_true, if_false]
      exact filter_orderedInsert_pos r q a hqa l
        fun c hc hqc => h c (List.mem_cons_of_mem _ hc) hqc

/-- Stability of insertion sort: when all kept elements are mutually related,
sorting does not change the filtered subsequence. -/
theorem filter_insertionSort {α : Type} (r : α → α → Prop) [DecidableRel r]
    (q : α → Bool) (hq : ∀ a b, q a = true → q b = true → r a b) :
    ∀ l : List α, (List.insertionSort r l).filter q = l.filter q
  | [] => rfl
  | a :: l => by
    cases hqa : q a
    · rw [List.insertionSort, filter_orderedInsert_neg r q a hqa,
        filter_insertionSort r q hq l, List.filter_cons]
      simp [hqa]
    · rw [List.insertionSort,
        filter_orderedInsert_pos r q a hqa _ (fun b _ hqb => hq a b hqa hqb),
        filter_insertionSort r q hq l, List.filter_cons]
      simp [hqa]

/-- One grouping step appends the issue's table to the key list only when it
is new. -/
theorem keys_tsUpdate (sep : String) (i : Issue) :
    ∀ d : List (String × TableData),
      (tsUpdate sep i d).map Prod.fst =
        if i.table ∈ d.map Prod.fst then d.map Prod.fst
        else d.map Prod.fst ++ [i.table]
  | [] => by simp [tsUpdate]
  | (t, td) :: rest => by
    by_cases h : t = i.table
    · simp [tsUpdate, if_pos h, h]
    · have hne : ¬ i.table = t := fun he => h he.symm
      simp only [tsUpdate, if_neg h, List.map_cons, keys_tsUpdate sep i rest]
      by_cases hm : i.table ∈ rest.map Prod.fst
      · simp [hm, List.mem_cons, hne]
      · simp [hm, List.mem_cons, hne]

/-- The key list of the grouping fold is the first-occurrence fold of the
issue tables. -/
theorem keys_foldl (sep : String) :
    ∀ (l : List Issue) (d : List (String × TableData)),
      ((l.foldl (fun d i => tsUpdate sep i d) d).map Prod.fst)
        = l.foldl
            (fun acc i => if i.table ∈ acc then acc else acc ++ [i.table])
            (d.map Prod.fst)
  | [], _ => rfl
  | i :: l, d => by
    simp only [List.foldl_cons]
    rw [keys_foldl sep l (tsUpdate sep i d), keys_tsUpdate]

/-- C4: the severity ranking is sorted descending by the key
(issue count, max policy count); filtering ranking and unsorted entries by
any fixed key gives the same list, so equal-key tables keep their relative
order; and the unsorted entries list the tables in first-occurrence order of
the input.  Together: ties retain first-occurrence input order — Python's
reverse=True sort is stable. -/
theorem severity_ranking_sorted_stable (rows : List String) :
    List.Sorted sevR (severity_by_table (rows.map parseRow)) ∧
    (∀ k : Nat × Nat,
      (severity_by_table (rows.map parseRow)).filter
          (fun e => decide (e.2 = k)) =
        (severityEntries (rows.map parseRow)).filter
          (fun e => decide (e.2 = k))) ∧
    (severityEntries (rows.map parseRow)).map Prod.fst =
      firstOccurrences ((rows.map parseRow).map Issue.table) := by
  refine ⟨List.sorted_insertionSort sevR _, ?_, ?_⟩
  · intro k
    apply filter_insertionSort
    intro a b ha hb
    simp only [decide_eq_true_eq] at ha hb
    unfold sevR
    rw [ha, hb]
    exact Or.inr ⟨rfl, le_refl _⟩
  · have h1 : (severityEntries (rows.map parseRow)).map Prod.fst
        = (table_summary "+" (rows.map parseRow)).map Prod.fst := by
      simp [severityEntries, List.map_map, Function.comp]
    rw [h1, table_summary, keys_foldl "+" (rows.map parseRow) []]
    rw [firstOccurrences, List.foldl_map, List.foldl_map, List.foldl_map]
    rfl

end FormulaPM
